import Mathlib

/-!
Shallow embedding of the routing-state inference engine of the
dishon-data-systems repository: the quality classifier (`in_quality`) and
the yield matcher (`get_yield`, `get_yielded_date`) from `wo_updater.py`,
and the processing report-row reconciler (`merge_processing_data`,
`get_wo_nums`) from `po_notifier.py`.

External HTTP lookups (`get_mrb_date`, `get_cc_date`, the confirmation
history behind `get_yield_data`, the purchase-order fetch of `get_wo_nums`,
`get_next_process`) are passed as function parameters; a lookup that can
raise is modelled with `Except Unit`.  Locale-formatted quantity strings
are modelled as rationals, the parse isolated at the boundary.
-/

namespace Dishon

/-- `infixChars n h` holds when `n` occurs as a contiguous block of `h`. -/
def infixChars (n : List Char) : List Char → Bool
  | [] => n.isEmpty
  | c :: rest => List.isPrefixOf n (c :: rest) || infixChars n rest

/-- `containsStr hay needle` models Python `needle in hay`. -/
def containsStr (hay needle : String) : Bool :=
  infixChars needle.toList hay.toList

/-- `startsWithAny acc s` models Python `s.startswith(tuple(acc))` with
`acc = constants.STARTING_STRINGS`. -/
def startsWithAny (acc : List String) (s : String) : Bool :=
  acc.any fun p => List.isPrefixOf p.toList s.toList

/-- Left-to-right replacement of every occurrence of `pat` by `rep`,
recursing on a character-count fuel; models Python `str.replace`. -/
def replaceFuel (pat rep : List Char) : ℕ → List Char → List Char
  | _, [] => []
  | 0, l => l
  | fuel + 1, c :: rest =>
    if pat.isPrefixOf (c :: rest) ∧ pat ≠ [] then
      rep ++ replaceFuel pat rep fuel (rest.drop (pat.length - 1))
    else c :: replaceFuel pat rep fuel rest

/-- `replaceStr s pat rep` models Python `s.replace(pat, rep)` (for a
nonempty pattern). -/
def replaceStr (s pat rep : String) : String :=
  String.mk (replaceFuel pat.toList rep.toList s.toList.length s.toList)

/-- One row of the production-center routing table (`prod_table[i]`), with
the fields `wo_updater.py` reads: `order` (work-slip text), `art` (product
code), `artbez` (description), `frgmge` (quantity to be released),
`ycomplete` (yield), `mrbqty`, `rverlust` (scrap), and the header database
id `vorgang` (only row 0's value is used). -/
structure Step where
  order : String := ""
  art : String := ""
  artbez : String := ""
  frgmge : ℚ := 0
  ycomplete : ℚ := 0
  mrbqty : ℚ := 0
  rverlust : ℚ := 0
  vorgang : String := ""
  deriving DecidableEq

instance : Inhabited Step := ⟨{}⟩

/-- The tuple returned by `in_quality`:
`(qual_status, qty, date, progress, mrb, mrb_qty, mrb_date)`.
The quantity slot holds the string `"N/A"` until a number is written,
modelled as a sum. -/
structure Verdict where
  status : ℕ
  qty : String ⊕ ℚ
  date : String
  progress : String
  mrb : Bool
  mrb_qty : ℚ
  mrb_date : String
  deriving DecidableEq

/-- The function-local mutable state of `in_quality`.  `prod_desc` models
the Python local `prod_description`, which stays unbound (`none`) until the
backward scan first assigns it. -/
structure QState where
  in_qual : Bool := false
  qty : String ⊕ ℚ := Sum.inl "N/A"
  date : String := "N/A"
  progress : String := "N/A"
  tentative : Bool := false
  qual_found : Bool := false
  mrb : Bool := false
  mrb_qty : ℚ := 0
  mrb_date : String := "N/A"
  prod_desc : Option String := none
  deriving DecidableEq

/-- `notSkipped acc s` holds when the backward scan of `in_quality` does not
skip step `s`: not a `"1st Off"` step, no `"CMM"` in the description, and
the product code starts with an accepted prefix. -/
def notSkipped (acc : List String) (s : Step) : Prop :=
  s.artbez ≠ "1st Off" ∧ containsStr s.artbez "CMM" = false ∧
    startsWithAny acc s.art = true

instance (acc : List String) (s : Step) : Decidable (notSkipped acc s) := by
  unfold notSkipped
  infer_instance

/-- The backward scan of `in_quality` (`wo_updater.py` 269-291).  The list
argument holds the steps at indices `i-1, i-2, …, 1` in scan order; `ccD`
models `get_cc_date` (an HTTP lookup whose exception is not caught).  Note
the source has no `break` after the `this_yield > curr_sum` branch: the
scan continues to earlier steps. -/
def backScanL (ccD : String → String → Except Unit String) (acc : List String)
    (dbId slip : String) (iIdx n : ℕ) (curr_sum : ℚ) :
    List Step → QState → Except Unit QState
  | [], st => .ok st
  | s :: rest, st =>
    let st1 := { st with prod_desc := some s.artbez }
    if notSkipped acc s then
      if s.ycomplete ≤ curr_sum then .ok st1
      else
        match ccD dbId slip with
        | .error e => .error e
        | .ok d =>
          backScanL ccD acc dbId slip iIdx n curr_sum rest
            { st1 with
              qty := Sum.inr (s.ycomplete - curr_sum)
              progress := toString iIdx ++ "/" ++ toString (n - 1)
              in_qual := true
              qual_found := true
              date := d }
    else backScanL ccD acc dbId slip iIdx n curr_sum rest st1

/-- The forward "tentative" scan of `in_quality` (`wo_updater.py` 293-307)
over the steps after the inspection step.  The source evaluates
`"CMM" not in prod_description` on the stale backward-loop variable `pd`;
evaluating it while unbound is a Python `NameError`, modelled as
`.error ()`.  The conjunction short-circuits as in Python, so a `"1st Off"`
step never touches `pd`. -/
def fwdScanL (acc : List String) (curr_yield : ℚ) (pd : Option String) :
    List Step → Except Unit Bool
  | [] => .ok false
  | s :: rest =>
    if s.artbez = "1st Off" then fwdScanL acc curr_yield pd rest
    else
      match pd with
      | none => .error ()
      | some d =>
        if containsStr d "CMM" then fwdScanL acc curr_yield pd rest
        else if startsWithAny acc s.art then
          if curr_yield < s.ycomplete then .ok true
          else fwdScanL acc curr_yield pd rest
        else fwdScanL acc curr_yield pd rest

/-- The `try/except` around `get_mrb_date` (`wo_updater.py` 250-254): a
raised exception is caught and replaced by the `"No Date"` sentinel. -/
def mrbResult (gm : String → Except Unit String) (slip : String) : String :=
  match gm slip with
  | .ok d => d
  | .error _ => "No Date"

/-- The outer loop of `in_quality` (`wo_updater.py` 240-307), recursing
structurally over `tbl.drop i` with `i` the current index.  `gm` models
`get_mrb_date` (its exception is caught, line 250-254); `ccD` models
`get_cc_date` (uncaught).  An MRB quantity on a step breaks the loop. -/
def inQualLoop (gm : String → Except Unit String)
    (ccD : String → String → Except Unit String) (acc : List String)
    (tbl : List Step) : List Step → ℕ → QState → Except Unit QState
  | [], _, st => .ok st
  | s :: rest, i, st =>
    if 0 < s.mrbqty then
      .ok { st with
            mrb := true
            mrb_qty := st.mrb_qty + s.mrbqty
            mrb_date := mrbResult gm s.order }
    else if (s.artbez = "Inspection" ∨ s.artbez = "Final Inspection") ∧
        st.qual_found = false then
      let curr_sum := s.ycomplete + s.mrbqty + s.rverlust
      match backScanL ccD acc (tbl.getD 0 default).vorgang s.order i tbl.length
          curr_sum ((tbl.drop 1).take (i - 1)).reverse st with
      | .error e => .error e
      | .ok st2 =>
        if st2.in_qual = true ∨ s.ycomplete = 0 then
          match fwdScanL acc s.ycomplete st2.prod_desc rest with
          | .error e => .error e
          | .ok t =>
            inQualLoop gm ccD acc tbl rest (i + 1)
              (if t then { st2 with tentative := true } else st2)
        else inQualLoop gm ccD acc tbl rest (i + 1) st2
    else inQualLoop gm ccD acc tbl rest (i + 1) st

/-- `in_quality(prod_table)` (`wo_updater.py` 218-315).  Returns `.error`
exactly when an uncaught lookup exception (or `NameError`) propagates. -/
def in_quality (gm : String → Except Unit String)
    (ccD : String → String → Except Unit String) (acc : List String)
    (tbl : List Step) : Except Unit Verdict :=
  match inQualLoop gm ccD acc tbl (tbl.drop 1) 1 {} with
  | .error e => .error e
  | .ok st =>
    .ok { status := if st.tentative = true ∧ st.in_qual = true then 1
                    else if st.in_qual = true then 2 else 0
          qty := st.qty
          date := st.date
          progress := st.progress
          mrb := st.mrb
          mrb_qty := st.mrb_qty
          mrb_date := st.mrb_date }

/-- One resolved completion confirmation as read by `get_yield_data`
(`wo_updater.py` 318-336): `qty` is `bumge + ymrbqty + verlust`, `date` is
`abldat`, `ts` the sliced `stand` timestamp. -/
structure YieldRec where
  qty : ℚ := 0
  date : String := ""
  ts : String := ""
  deriving DecidableEq

/-- The loop of `get_yielded_date` (`wo_updater.py` 358-369); the list holds
the confirmation records in backward scan order (newest filed first). -/
def gyLoop (sum_qty : ℚ) : List YieldRec → ℚ → String → String → String × String
  | [], _, _, _ => ("ERROR", "N/A")
  | r :: rest, total, latest, ts =>
    let total1 := total + r.qty
    let p := if latest = "" ∧ r.qty ≠ 0 then (r.date, r.ts) else (latest, ts)
    if total1 = sum_qty then p
    else gyLoop sum_qty rest total1 p.1 p.2

/-- Result of `get_yielded_date`: a `(date, timestamp)` pair, or the bare
string `"ERROR"` returned for an empty work slip (`wo_updater.py` 348-349;
the source returns a plain string there, not a tuple). -/
inductive YDRes
  | pair (d t : String)
  | bare (s : String)
  deriving DecidableEq

/-- `get_yielded_date(work_slip, sum_qty)` (`wo_updater.py` 339-369); `hist`
models the filed-confirmation query for a work slip, oldest first. -/
def get_yielded_date (hist : String → List YieldRec) (slip : String)
    (sum_qty : ℚ) : YDRes :=
  if slip = "" then .bare "ERROR"
  else
    let p := gyLoop sum_qty (hist slip).reverse 0 "" ""
    .pair p.1 p.2

/-- Python `yield_tuple[0]`: first pair component, or the first character of
the bare string. -/
def yt0 : YDRes → String
  | .pair d _ => d
  | .bare s => s.take 1

/-- Python `yield_tuple[1]`: second pair component, or the second character
of the bare string. -/
def yt1 : YDRes → String
  | .pair _ t => t
  | .bare s => (s.drop 1).take 1

/-- The tuple returned by `get_yield`; the quantity slot carries the raw
yield value of the matched step or `"N/A"`. -/
structure GY where
  matched : Bool
  work_slip : String
  process : String
  qty : String ⊕ ℚ
  next_op : String
  timestamp : String
  deriving DecidableEq

/-- The all-`"N/A"` no-match tuple of `get_yield`. -/
def noMatch : GY := ⟨false, "N/A", "N/A", Sum.inl "N/A", "N/A", "N/A"⟩

/-- The loop of `get_yield` (`wo_updater.py` 383-407) over the index list
`[n-1, …, 1]`.  The only table access that can be out of range is
`prod_table[i + 2]` (line 400), modelled with `List.get?`; the accesses at
`i` and `i + 1` are in range whenever evaluated. -/
def gyScan (hist : String → List YieldRec) (tbl : List Step) (date : String) :
    List ℕ → Except Unit GY
  | [] => .ok noMatch
  | i :: rest =>
    let s := tbl.getD i default
    if s.frgmge ≤ 0 then
      let row_sum := s.ycomplete + s.mrbqty + s.rverlust
      let yt := get_yielded_date hist s.order row_sum
      if yt0 yt = date then
        let nxt : Except Unit String :=
          if i = tbl.length - 1 then .ok "None"
          else if (tbl.getD (i + 1) default).artbez = "1st Off" then
            match tbl.get? (i + 2) with
            | none => .error ()
            | some t => .ok t.artbez
          else .ok (tbl.getD (i + 1) default).artbez
        match nxt with
        | .error e => .error e
        | .ok nop => .ok ⟨true, s.order, s.artbez, Sum.inr s.ycomplete, nop, yt1 yt⟩
      else .ok noMatch
    else gyScan hist tbl date rest

/-- `get_yield(prod_table, date)` (`wo_updater.py` 372-407). -/
def get_yield (hist : String → List YieldRec) (tbl : List Step)
    (date : String) : Except Unit GY :=
  gyScan hist tbl date ((List.range tbl.length).drop 1).reverse

/-- One processing report row (`po_notifier.py` `get_processing_data`), a
fixed-width record; cells 3..7 are the ones `merge_processing_data` reads:
part/process (`pn`), the purchase-order id cell later overwritten with the
joined work-order list (`poId`), receipt location, quantity, next process. -/
structure PRow where
  po : String := ""
  supplier : String := ""
  desc : String := ""
  pn : String := ""
  poId : String := ""
  loc : String := ""
  qty : ℚ := 0
  nextp : String := ""
  deriving DecidableEq

instance : Inhabited PRow := ⟨{}⟩

/-- The loop state of `merge_processing_data`, plus instrumentation fields
recording each enrichment call in order (`wnCalls` for `get_wo_nums`,
`npCalls` for `get_next_process`).  `curr_loc`/`curr_qty` are unbound in
Python before the first assignment but are never read before it; junk
initial values stand in for them. -/
structure MState where
  merged_data : List PRow := []
  prev_pn : String := ""
  prev_loc : String := ""
  prev_qty : ℚ := 0
  prev_row : ℕ := 0
  merged : Bool := false
  curr_pn : String := "No Value"
  curr_loc : String := ""
  curr_qty : ℚ := 0
  wnCalls : List (String × String) := []
  npCalls : List (String × String) := []
  deriving DecidableEq

/-- One iteration of the `merge_processing_data` loop (`po_notifier.py`
376-397) at index `i ∈ 1..len(data)`.  `wo_list[0]` on an empty enrichment
result is a Python IndexError, modelled as `.error ()`. -/
def mergeStep (wn : String → String → List String)
    (np : String → String → String) (data : List PRow) (st : MState)
    (i : ℕ) : Except Unit MState :=
  let st := if i < data.length then
      let r := data.getD i default
      { st with curr_pn := r.pn, curr_loc := r.loc, curr_qty := r.qty }
    else st
  if i < data.length ∧ st.curr_pn = st.prev_pn ∧ st.curr_loc = st.prev_loc then
    .ok { st with prev_qty := st.prev_qty + st.curr_qty, merged := true }
  else
    let rep := data.getD st.prev_row default
    match wn rep.poId rep.pn with
    | [] => .error ()
    | w0 :: ws =>
      let row1 := { rep with poId := String.intercalate ", " (w0 :: ws) }
      let row2 := { row1 with nextp := np w0 row1.pn }
      let row3 := if st.merged then { row2 with qty := st.prev_qty } else row2
      let st1 :=
        { st with
          merged_data := st.merged_data ++ [row3]
          merged := false
          wnCalls := st.wnCalls ++ [(rep.poId, rep.pn)]
          npCalls := st.npCalls ++ [(w0, rep.pn)] }
      .ok (if st1.curr_pn ≠ "No Value" then
            { st1 with
              prev_pn := st1.curr_pn
              prev_loc := st1.curr_loc
              prev_qty := st1.curr_qty
              prev_row := i }
          else st1)

/-- Folds `mergeStep` over the iteration indices. -/
def mergeGo (wn : String → String → List String)
    (np : String → String → String) (data : List PRow) :
    List ℕ → MState → Except Unit MState
  | [], st => .ok st
  | i :: rest, st =>
    match mergeStep wn np data st i with
    | .error e => .error e
    | .ok st1 => mergeGo wn np data rest st1

/-- `merge_processing_data(data)` (`po_notifier.py` 360-399), returning the
merged rows together with the recorded enrichment calls.  The source
indexes `data[0]` unconditionally, so the empty list is an error. -/
def merge_processing_data (wn : String → String → List String)
    (np : String → String → String) (data : List PRow) :
    Except Unit (List PRow × List (String × String) × List (String × String)) :=
  match data with
  | [] => .error ()
  | r0 :: _ =>
    match mergeGo wn np data (List.range' 1 data.length)
        { prev_pn := r0.pn, prev_loc := r0.loc, prev_qty := r0.qty } with
    | .error e => .error e
    | .ok st => .ok (st.merged_data, st.wnCalls, st.npCalls)

/-- One table line of a purchase order as read by `get_wo_nums`. -/
structure POLine where
  ptext : String := ""
  artikel : String := ""
  deriving DecidableEq

/-- `get_wo_nums(database_id, process)` (`po_notifier.py` 402-417);
`poTable` models the purchase-order database fetch. -/
def get_wo_nums (poTable : String → List POLine) (database_id process : String) :
    List String :=
  ((poTable database_id).filter
      (fun r => containsStr r.ptext "WO" && (r.artikel == process))).map
    (fun r => replaceStr r.ptext "WO " "")

/-- The forward tentative scan as the spec and claim C2 describe it: every
skip filter, including the CMM filter, evaluated on the forward-scanned
step itself. -/
def fwdScanSpec (acc : List String) (curr_yield : ℚ) : List Step → Bool
  | [] => false
  | s :: rest =>
    if s.artbez = "1st Off" then fwdScanSpec acc curr_yield rest
    else if containsStr s.artbez "CMM" then fwdScanSpec acc curr_yield rest
    else if startsWithAny acc s.art then
      if curr_yield < s.ycomplete then true
      else fwdScanSpec acc curr_yield rest
    else fwdScanSpec acc curr_yield rest

/-- The candidate `(date, timestamp)` as claim C8 describes it: taken from
the first record of the backward scan carrying nonzero quantity. -/
def candidateSpec : List YieldRec → String × String
  | [] => ("", "")
  | r :: rest => if r.qty ≠ 0 then (r.date, r.ts) else candidateSpec rest

/-! ### Concrete lookup environments and routing tables for the scenario
claims.  Product codes start with `"X"`, the accepted prefix. -/

/-- A completion-confirmation date lookup (`get_cc_date`) that succeeds. -/
def ccOk : String → String → Except Unit String := fun _ _ => .ok "01/02/25"

/-- A completion-confirmation date lookup that always raises. -/
def ccRaise : String → String → Except Unit String := fun _ _ => .error ()

/-- An MRB-date lookup (`get_mrb_date`) that always succeeds. -/
def gmOk : String → Except Unit String := fun _ => .ok "03/04/25"

/-- Accepted product-code prefixes (`constants.STARTING_STRINGS`). -/
def accX : List String := ["X"]

/-- Routing table for claim C1: two qualifying production steps before the
inspection step, both with completed quantity above `curr_sum = 40`. -/
def tblC1 : List Step :=
  [ { artbez := "Header", vorgang := "V1" },
    { artbez := "Mill", art := "X1", ycomplete := 200 },
    { artbez := "Turn", art := "X1", ycomplete := 100 },
    { artbez := "Inspection", art := "X1", order := "WS3", ycomplete := 40 } ]

/-- Routing table for claim C2: a `"CMM Check"` step after the inspection
step; the backward scan leaves `prod_description = "Mill"`. -/
def tblC2 : List Step :=
  [ { artbez := "Header", vorgang := "V1" },
    { artbez := "Mill", art := "X1", ycomplete := 100 },
    { artbez := "Inspection", art := "X1", order := "WS2", ycomplete := 40 },
    { artbez := "CMM Check", art := "X1", ycomplete := 150 } ]

/-- The forward step of `tblC2` whose description contains `"CMM"`. -/
def stepCMM : Step := { artbez := "CMM Check", art := "X1", ycomplete := 150 }

/-- Routing table for claim C3: the last step is not fully released
(`frgmge = 5`) but the step before it is. -/
def tblC3 : List Step :=
  [ { artbez := "Header" },
    { artbez := "Mill", order := "W1", frgmge := 0, ycomplete := 10 },
    { artbez := "Pack", order := "W2", frgmge := 5 } ]

/-- Confirmation history for `tblC3`: one filed record of quantity 10 on
the target date. -/
def histC3 : String → List YieldRec := fun s =>
  if s = "W1" then [ { qty := 10, date := "10/11/25", ts := "08:00" } ] else []

/-- Routing table for claim C4: an inspection step whose backward scan
finds a qualifying prior step, so `get_cc_date` is invoked. -/
def tblC4 : List Step :=
  [ { artbez := "Header", vorgang := "V1" },
    { artbez := "Mill", art := "X1", ycomplete := 100 },
    { artbez := "Inspection", art := "X1", order := "WS2", ycomplete := 40 } ]

/-- The routing table of the spec scenario behind claim C5. -/
def tblC5 : List Step :=
  [ { artbez := "Header", vorgang := "V1" },
    { artbez := "1st Off", art := "X1", ycomplete := 0 },
    { artbez := "Drilling", art := "X1", ycomplete := 100 },
    { artbez := "Inspection", art := "X1", order := "WS3", ycomplete := 40 } ]

/-- Confirmation history for claim C8's counterexample, oldest first: the
backward scan meets the empty-dated nonzero record first. -/
def histC8 : String → List YieldRec := fun s =>
  if s = "W8" then
    [ { qty := 1, date := "01/01/25", ts := "t2" },
      { qty := 1, date := "", ts := "t1" } ]
  else []

/-- Confirmation history for claim C8's witness. -/
def histC8w : String → List YieldRec := fun s =>
  if s = "W" then [ { qty := 2, date := "01/01/25", ts := "t1" } ] else []

/-- Routing table for claim C9's witness: the first fully-released step
(scanning backward) is second to last, and the last step is `"1st Off"`. -/
def tblC9 : List Step :=
  [ { artbez := "Header" },
    { artbez := "Mill", order := "W9", frgmge := 0, ycomplete := 7 },
    { artbez := "1st Off", frgmge := 3 } ]

/-- Confirmation history for `tblC9`, matching the target date. -/
def histC9 : String → List YieldRec := fun s =>
  if s = "W9" then [ { qty := 7, date := "10/11/25", ts := "09:00" } ] else []

/-- Purchase-order fetch for claim C10: the one line carries no `"WO"` tag,
so `get_wo_nums` returns the empty list. -/
def poTabC10 : String → List POLine := fun _ =>
  [ { ptext := "no tag here", artikel := "ProcA" } ]

/-- A constant next-process lookup. -/
def npConst : String → String → String := fun _ _ => "-"

/-- The single processing row of claim C10's failing input. -/
def rowC10 : PRow := { pn := "ProcA", poId := "ID1", loc := "L1", qty := 3 }

/-- Work-order-number lookup for claim C7's witness. -/
def wnC7 : String → String → List String := fun a b =>
  if a = "ID1" ∧ b = "ProcA" then ["100", "200"] else []

/-- The all-equal-key processing rows of claim C7's witness. -/
def rowsC7 : List PRow :=
  [ { pn := "ProcA", poId := "ID1", loc := "L1", qty := 3 },
    { pn := "ProcA", poId := "ID2", loc := "L1", qty := 4 },
    { pn := "ProcA", poId := "ID3", loc := "L1", qty := 5 } ]

/-! ### Theorems -/

deriving instance DecidableEq for Except

unseal Rat.add Rat.sub in
/-- C1, counterexample.  On `tblC1` the first non-skipped step before the
inspection (the `"Turn"` step, `completed = 100 > curr_sum = 40`) does
not end the backward scan: the source has no `break` in the
`this_yield > curr_sum` branch, so the earlier `"Mill"` step is also
examined and overwrites the quantity with `200 - 40 = 160`, not the
`100 - 40 = 60` the claim requires. -/
theorem C1_counterexample :
    in_quality gmOk ccOk accX tblC1 =
      .ok ⟨2, Sum.inr 160, "01/02/25", "3/3", false, 0, "N/A"⟩ ∧
    (Sum.inr (160 : ℚ) : String ⊕ ℚ) ≠ Sum.inr (100 - 40 : ℚ) := by
  constructor
  · decide
  · decide

unseal Rat.add Rat.sub in
/-- C2.  On `tblC2` the forward tentative scan checks `"CMM"` against the
stale backward-loop variable (`"Mill"`), so the `"CMM Check"` step is not
skipped and the verdict becomes TENTATIVE (status 1); the scan the claim
(and the source comment) describe, with the CMM filter on the scanned step
itself (`fwdScanSpec`), finds no discrepancy. -/
theorem C2_stale_cmm_filter :
    in_quality gmOk ccOk accX tblC2 =
      .ok ⟨1, Sum.inr 60, "01/02/25", "2/3", false, 0, "N/A"⟩ ∧
    fwdScanSpec accX 40 [stepCMM] = false := by
  constructor
  · decide
  · decide

unseal Rat.add Rat.sub in
/-- C3, counterexample.  `tblC3` has `released_qty = 5` on its last step,
yet `get_yield` keeps scanning backward, finds the fully released `"Mill"`
step, and returns a successful match for the target date. -/
theorem C3_counterexample :
    (tblC3.getD (tblC3.length - 1) default).frgmge = 5 ∧
    get_yield histC3 tblC3 "10/11/25" =
      .ok ⟨true, "W1", "Mill", Sum.inr 10, "Pack", "08:00"⟩ := by
  constructor
  · decide
  · decide

unseal Rat.add Rat.sub in
/-- C4, counterexample.  On `tblC4` the backward scan finds the order in
quality and calls `get_cc_date`, which raises; the exception is not caught
(`wo_updater.py` 289-290 has no try/except), so `in_quality` propagates it
instead of returning a verdict with a sentinel date. -/
theorem C4_counterexample :
    in_quality gmOk ccRaise accX tblC4 = .error () := by
  decide

unseal Rat.add Rat.sub in
/-- C5.  The spec scenario: backward scan from the inspection step skips
`"1st Off"`, compares the `"Drilling"` step's completed 100 against
`curr_sum = 40`, and classifies CONFIRMED (status 2) with quantity 60 and
progress `"3/3"`. -/
theorem C5_scenario :
    in_quality gmOk ccOk accX tblC5 =
      .ok ⟨2, Sum.inr 60, "01/02/25", "3/3", false, 0, "N/A"⟩ := by
  decide

unseal Rat.add Rat.sub in
/-- C8, counterexample.  In the backward scan over `histC8` the first
nonzero-quantity record has an empty date, so the scan does not keep it as
the candidate: the returned pair comes from the second nonzero record,
while the candidate the claim describes (`candidateSpec`) is the first
one. -/
theorem C8_counterexample :
    get_yielded_date histC8 "W8" 2 = YDRes.pair "01/01/25" "t2" ∧
    candidateSpec ((histC8 "W8").reverse) = ("", "t1") ∧
    ("01/01/25", "t2") ≠ ("", "t1") := by
  refine ⟨by decide, by decide, by decide⟩

unseal Rat.add Rat.sub in
/-- C10.  A concrete partiality witness for the reconciler: the single row
`rowC10` groups alone, its purchase order (`poTabC10`) has no `"WO"`-tagged
line matching the process, `get_wo_nums` returns `[]`, and the emission
step fails with the modelled IndexError instead of producing a merged
row. -/
theorem C10_reconciler_partial :
    get_wo_nums poTabC10 rowC10.poId rowC10.pn = [] ∧
    merge_processing_data (get_wo_nums poTabC10) npConst [rowC10] = .error () := by
  constructor
  · decide
  · decide

/-- Helper: the `get_yield` scan skips every index whose step still has
quantity to be released. -/
theorem gyScan_no_release (hist : String → List YieldRec) (tbl : List Step)
    (date : String) :
    ∀ idxs : List ℕ, (∀ i ∈ idxs, ¬ (tbl.getD i default).frgmge ≤ 0) →
      gyScan hist tbl date idxs = .ok noMatch
  | [], _ => rfl
  | i :: rest, h => by
    have hi := h i (List.mem_cons_self i rest)
    simp only [gyScan]
    rw [if_neg hi]
    exact gyScan_no_release hist tbl date rest
      (fun j hj => h j (List.mem_cons_of_mem i hj))

/-- C3, amended.  If no process step of the routing table is fully released
(every step at index `1..n-1` has positive `frgmge`), `get_yield` returns
the no-match tuple for every target date.  A table whose last step alone is
not fully released can still match at an earlier fully released step
(`C3_counterexample`). -/
theorem C3_amended_no_released_step (hist : String → List YieldRec)
    (tbl : List Step) (date : String)
    (h : ∀ i, 1 ≤ i → i < tbl.length → 0 < (tbl.getD i default).frgmge) :
    get_yield hist tbl date = .ok noMatch := by
  unfold get_yield
  apply gyScan_no_release
  intro i hi
  rw [List.mem_reverse, List.drop_one, List.tail_range, List.mem_range'] at hi
  obtain ⟨k, hk, rfl⟩ := hi
  exact not_le.mpr (h (1 + 1 * k) (by omega) (by omega))

/-- Helper: steps with no MRB quantity and a non-inspection description
leave the `in_quality` loop state untouched, only advancing the index. -/
theorem inQualLoop_skip (gm : String → Except Unit String)
    (ccD : String → String → Except Unit String) (acc : List String)
    (tbl : List Step) (L : List Step) (pre : List Step) :
    ∀ (i : ℕ) (st : QState),
      (∀ p ∈ pre, ¬ 0 < p.mrbqty ∧ p.artbez ≠ "Inspection" ∧
        p.artbez ≠ "Final Inspection") →
      inQualLoop gm ccD acc tbl (pre ++ L) i st =
        inQualLoop gm ccD acc tbl L (i + pre.length) st := by
  induction pre with
  | nil => intro i st _; simp
  | cons p pre2 ih =>
    intro i st h
    have hp := h p (List.mem_cons_self ..)
    simp only [List.cons_append, inQualLoop]
    rw [if_neg hp.1, if_neg (fun hcon => hcon.1.elim hp.2.1 hp.2.2)]
    show inQualLoop gm ccD acc tbl (pre2 ++ L) (i + 1) st =
      inQualLoop gm ccD acc tbl L (i + (p :: pre2).length) st
    rw [ih (i + 1) st (fun q hq => h q (List.mem_cons_of_mem _ hq))]
    have heq : i + 1 + pre2.length = i + (p :: pre2).length := by
      simp only [List.length_cons]
      omega
    rw [heq]

/-- Helper: a step carrying MRB quantity breaks the `in_quality` loop,
recording the MRB flag, quantity and date. -/
theorem inQualLoop_mrb (gm : String → Except Unit String)
    (ccD : String → String → Except Unit String) (acc : List String)
    (tbl : List Step) (s : Step) (L : List Step) (i : ℕ) (st : QState)
    (h : 0 < s.mrbqty) :
    inQualLoop gm ccD acc tbl (s :: L) i st =
      .ok { st with
            mrb := true
            mrb_qty := st.mrb_qty + s.mrbqty
            mrb_date := mrbResult gm s.order } := by
  simp only [inQualLoop]
  rw [if_pos h]

/-- C6.  If the steps before step `s` carry no MRB quantity and are not
inspection steps, and `s` carries MRB quantity, `in_quality` halts at `s`
regardless of the remaining steps (`rest` is arbitrary, so later
inspection steps are never evaluated): the verdict keeps the default
quality fields (`NOT_IN_QUALITY`, status 0) and reports the MRB flag with
`s`'s MRB quantity. -/
theorem C6_mrb_halts_scan (gm : String → Except Unit String)
    (ccD : String → String → Except Unit String) (acc : List String)
    (hdr s : Step) (pre rest : List Step)
    (hpre : ∀ p ∈ pre, ¬ 0 < p.mrbqty ∧ p.artbez ≠ "Inspection" ∧
      p.artbez ≠ "Final Inspection")
    (hmrb : 0 < s.mrbqty) :
    in_quality gm ccD acc (hdr :: (pre ++ s :: rest)) =
      .ok { status := 0, qty := Sum.inl "N/A", date := "N/A", progress := "N/A",
            mrb := true, mrb_qty := s.mrbqty,
            mrb_date := mrbResult gm s.order } := by
  unfold in_quality
  rw [show ((hdr :: (pre ++ s :: rest)).drop 1) = pre ++ s :: rest from rfl]
  rw [inQualLoop_skip gm ccD acc _ _ pre 1 {} hpre]
  rw [inQualLoop_mrb gm ccD acc _ s rest (1 + pre.length) {} hmrb]
  simp

/-- C6, witness. -/
theorem C6_mrb_halts_scan_witness :
    in_quality gmOk ccOk accX
        [ { artbez := "Header" },
          { artbez := "Mill", art := "X1", ycomplete := 50 },
          { artbez := "Anodize", art := "X1", mrbqty := 4, order := "WSM" },
          { artbez := "Inspection", art := "X1", ycomplete := 10 } ] =
      .ok { status := 0, qty := Sum.inl "N/A", date := "N/A", progress := "N/A",
            mrb := true, mrb_qty := 4, mrb_date := "03/04/25" } := by
  have := C6_mrb_halts_scan gmOk ccOk accX { artbez := "Header" }
    { artbez := "Anodize", art := "X1", mrbqty := 4, order := "WSM" }
    [ { artbez := "Mill", art := "X1", ycomplete := 50 } ]
    [ { artbez := "Inspection", art := "X1", ycomplete := 10 } ]
    (by intro p hp; simp only [List.mem_singleton] at hp; subst hp; refine ⟨by decide, by decide, by decide⟩)
    (by decide)
  simpa using this

/-- C3, witness: a two-row table whose only process step has positive
released quantity never matches. -/
theorem C3_amended_witness :
    get_yield histC3
        [ { artbez := "Header" }, { artbez := "Mill", frgmge := 2 } ]
        "10/11/25" = .ok noMatch := by
  apply C3_amended_no_released_step
  intro i h1 h2
  have hi : i = 1 := by
    simp only [List.length_cons, List.length_nil] at h2
    omega
  subst hi
  decide

/-- Helper: the backward scan raises as soon as its first step is not
skipped, exceeds `curr_sum`, and the date lookup fails. -/
theorem backScanL_error (ccD : String → String → Except Unit String)
    (acc : List String) (dbId slip : String) (iIdx n : ℕ) (curr_sum : ℚ)
    (p : Step) (L : List Step) (st : QState) (e : Unit)
    (hns : notSkipped acc p)
    (hgt : curr_sum < p.ycomplete) (hcc : ccD dbId slip = .error e) :
    backScanL ccD acc dbId slip iIdx n curr_sum (p :: L) st = .error e := by
  simp only [backScanL]
  rw [if_pos hns, if_neg (not_le.mpr hgt), hcc]

/-- Helper: an inspection step whose backward scan raises makes the whole
loop raise. -/
theorem inQualLoop_insp_ccerr (gm : String → Except Unit String)
    (ccD : String → String → Except Unit String) (acc : List String)
    (tbl : List Step) (s : Step) (rest : List Step) (i : ℕ) (st : QState)
    (e : Unit) (h1 : ¬ 0 < s.mrbqty)
    (h2 : s.artbez = "Inspection" ∨ s.artbez = "Final Inspection")
    (h3 : st.qual_found = false)
    (h4 : backScanL ccD acc (tbl.getD 0 default).vorgang s.order i tbl.length
      (s.ycomplete + s.mrbqty + s.rverlust) ((tbl.drop 1).take (i - 1)).reverse
      st = .error e) :
    inQualLoop gm ccD acc tbl (s :: rest) i st = .error e := by
  simp only [inQualLoop]
  rw [if_neg h1, if_pos (And.intro h2 h3), h4]

/-- C4, amended.  `in_quality` fails soft only on the MRB-date lookup: if
`get_mrb_date` raises, `mrb_date` becomes the `"No Date"` sentinel and a
complete verdict is still returned; but if `get_cc_date` (the quality
entry-date lookup) raises while the backward scan finds the order in
quality, the exception propagates out of the classifier. -/
theorem C4_amended_soft_fail :
    (∀ (ccD : String → String → Except Unit String) (acc : List String)
        (hdr s : Step) (rest : List Step), 0 < s.mrbqty →
      in_quality (fun _ => .error ()) ccD acc (hdr :: s :: rest) =
        .ok { status := 0, qty := Sum.inl "N/A", date := "N/A",
              progress := "N/A", mrb := true, mrb_qty := s.mrbqty,
              mrb_date := "No Date" }) ∧
    (∀ (gm : String → Except Unit String) (acc : List String) (hdr p ins : Step),
      ¬ 0 < p.mrbqty → p.artbez ≠ "Inspection" → p.artbez ≠ "Final Inspection" →
      ¬ 0 < ins.mrbqty → ins.artbez = "Inspection" → notSkipped acc p →
      ins.ycomplete + ins.mrbqty + ins.rverlust < p.ycomplete →
      in_quality gm (fun _ _ => .error ()) acc [hdr, p, ins] = .error ()) := by
  constructor
  · intro ccD acc hdr s rest hs
    unfold in_quality
    rw [show ((hdr :: s :: rest).drop 1) = s :: rest from rfl]
    rw [inQualLoop_mrb _ ccD acc _ s rest 1 {} hs]
    simp [mrbResult]
  · intro gm acc hdr p ins hp1 hp2 hp3 hi1 hi2 hns hlt
    unfold in_quality
    rw [show (([hdr, p, ins] : List Step).drop 1) = [p] ++ [ins] from rfl]
    rw [inQualLoop_skip _ _ _ _ _ [p] 1 {}
      (by
        intro q hq
        simp only [List.mem_singleton] at hq
        subst hq
        exact ⟨hp1, hp2, hp3⟩)]
    rw [inQualLoop_insp_ccerr gm _ acc _ ins [] (1 + [p].length) {} () hi1
      (Or.inl hi2) rfl
      (backScanL_error _ acc _ ins.order _ _ _ p [] {} () hns hlt rfl)]

unseal Rat.add Rat.sub in
/-- C4, witness: both halves of the amended claim at concrete inputs. -/
theorem C4_amended_witness :
    in_quality (fun _ => .error ()) ccOk accX
        [ { artbez := "Header" },
          { artbez := "Mill", art := "X1", mrbqty := 2, order := "WSX" } ] =
      .ok { status := 0, qty := Sum.inl "N/A", date := "N/A", progress := "N/A",
            mrb := true, mrb_qty := 2, mrb_date := "No Date" } ∧
    in_quality gmOk (fun _ _ => .error ()) accX tblC4 = .error () := by
  constructor
  · exact C4_amended_soft_fail.1 ccOk accX { artbez := "Header" }
      { artbez := "Mill", art := "X1", mrbqty := 2, order := "WSX" } [] (by decide)
  · exact C4_amended_soft_fail.2 gmOk accX
      { artbez := "Header", vorgang := "V1" }
      { artbez := "Mill", art := "X1", ycomplete := 100 }
      { artbez := "Inspection", art := "X1", order := "WS2", ycomplete := 40 }
      (by decide) (by decide) (by decide) (by decide) (by decide) (by decide)
      (by decide)

/-- Helper: reading past a prefix indexes into the suffix. -/
theorem getD_append_len (l2 : List Step) (k : ℕ) :
    ∀ pre : List Step, (pre ++ l2).getD (pre.length + k) default = l2.getD k default
  | [] => by simp
  | p :: pre => by
    have h : (p :: pre).length + k = (pre.length + k) + 1 := by
      simp only [List.length_cons]
      omega
    rw [List.cons_append, h, List.getD_cons_succ]
    exact getD_append_len l2 k pre

/-- Helper: `get?` past a prefix indexes into the suffix. -/
theorem get?_append_len (l2 : List Step) (k : ℕ) :
    ∀ pre : List Step, (pre ++ l2).get? (pre.length + k) = l2.get? k
  | [] => by simp
  | p :: pre => by
    have h : (p :: pre).length + k = (pre.length + k) + 1 := by
      simp only [List.length_cons]
      omega
    rw [List.cons_append, h, List.get?_cons_succ]
    exact get?_append_len l2 k pre

/-- C9.  If the first fully released step found by `get_yield`'s backward
scan is the second-to-last step `s`, the last step `t` is a `"1st Off"`
step, and the resolved candidate date equals the target date, then
`get_yield` evaluates `prod_table[i + 2]` one past the end of the table
and raises the modelled IndexError instead of returning a match. -/
theorem C9_index_error (hist : String → List YieldRec) (hd : Step)
    (pre2 : List Step) (s t : Step) (date : String)
    (ht1 : t.artbez = "1st Off") (ht2 : ¬ t.frgmge ≤ 0) (hs : s.frgmge ≤ 0)
    (hdate : yt0 (get_yielded_date hist s.order
      (s.ycomplete + s.mrbqty + s.rverlust)) = date) :
    get_yield hist ((hd :: pre2) ++ [s, t]) date = .error () := by
  set pre : List Step := hd :: pre2 with hpre
  have hlen : (pre ++ [s, t]).length = pre2.length + 3 := by
    simp [hpre]
  have hidx : ((List.range (pre ++ [s, t]).length).drop 1).reverse
      = (1 + (pre2.length + 1)) :: ((1 + pre2.length) ::
        (List.range' 1 pre2.length).reverse) := by
    rw [hlen, List.drop_one, List.tail_range]
    have h2 : pre2.length + 3 - 1 = (pre2.length + 1) + 1 := by omega
    rw [h2, List.range'_1_concat, List.range'_1_concat]
    simp
  unfold get_yield
  rw [hidx, gyScan]
  have hgt : (pre ++ [s, t]).getD (1 + (pre2.length + 1)) default = t := by
    have h3 : 1 + (pre2.length + 1) = pre.length + 1 := by
      simp [hpre]
      omega
    rw [h3, getD_append_len]
    rfl
  have hgs : (pre ++ [s, t]).getD (1 + pre2.length) default = s := by
    have h3 : 1 + pre2.length = pre.length + 0 := by
      simp [hpre]
      omega
    rw [h3, getD_append_len]
    rfl
  rw [hgt, if_neg ht2]
  rw [gyScan, hgs, if_pos hs]
  simp only [hdate, if_pos]
  have hne : ¬ (1 + pre2.length = (pre ++ [s, t]).length - 1) := by
    rw [hlen]
    omega
  rw [if_neg hne]
  have hgt2 : (pre ++ [s, t]).getD (1 + pre2.length + 1) default = t := by
    have h3 : 1 + pre2.length + 1 = pre.length + 1 := by
      simp [hpre]
      omega
    rw [h3, getD_append_len]
    rfl
  rw [hgt2, if_pos ht1]
  have hnone : (pre ++ [s, t]).get? (1 + pre2.length + 2) = none := by
    have h3 : 1 + pre2.length + 2 = pre.length + 2 := by
      simp [hpre]
      omega
    rw [h3, get?_append_len]
    rfl
  rw [hnone]

unseal Rat.add Rat.sub in
/-- C9, witness: the concrete table `tblC9` raises. -/
theorem C9_index_error_witness :
    get_yield histC9 tblC9 "10/11/25" = .error () := by
  have := C9_index_error histC9 { artbez := "Header" } []
    { artbez := "Mill", order := "W9", frgmge := 0, ycomplete := 7 }
    { artbez := "1st Off", frgmge := 3 } "10/11/25"
    (by decide) (by decide) (by decide) (by decide)
  simpa using this

/-- Helper: if no backward-scan prefix accumulates to the target sum, the
`get_yielded_date` loop exhausts the history and reports the error
sentinel. -/
theorem gyLoop_no_hit (s : ℚ) :
    ∀ (recs : List YieldRec) (total : ℚ) (l ts : String),
      (∀ k, 1 ≤ k → k ≤ recs.length →
        total + ((recs.take k).map YieldRec.qty).sum ≠ s) →
      gyLoop s recs total l ts = ("ERROR", "N/A")
  | [], _, _, _, _ => rfl
  | r :: rest, total, l, ts, h => by
    have h1 : ¬ (total + r.qty = s) := by
      have := h 1 (le_refl 1) (by simp)
      simpa using this
    rw [gyLoop]
    simp only [if_neg h1]
    apply gyLoop_no_hit s rest (total + r.qty)
    intro k hk1 hk2
    have := h (k + 1) (by omega) (by simpa using hk2)
    rw [List.take_succ_cons, List.map_cons, List.sum_cons, ← add_assoc] at this
    exact this

/-- Helper: when the shortest backward-scan prefix reaching the target sum
has length `k`, the loop returns at step `k` with the candidate from the
first nonzero-quantity record of that prefix (given nonempty dates). -/
theorem gyLoop_hit (s : ℚ) :
    ∀ (recs : List YieldRec) (k : ℕ) (total : ℚ) (l ts : String),
      1 ≤ k → k ≤ recs.length →
      total + ((recs.take k).map YieldRec.qty).sum = s →
      (∀ m, 1 ≤ m → m < k →
        total + ((recs.take m).map YieldRec.qty).sum ≠ s) →
      (∀ r ∈ recs.take k, r.date ≠ "") →
      gyLoop s recs total l ts =
        (if l = "" then
          match (recs.take k).find? (fun r => decide (r.qty ≠ 0)) with
          | some r => (r.date, r.ts)
          | none => (l, ts)
        else (l, ts))
  | [], k, total, l, ts, hk1, hk2, _, _, _ => by
    simp at hk2
    omega
  | r :: rest, 1, total, l, ts, _, _, hsum, _, hdates => by
    rw [List.take_succ_cons, List.take_zero] at hsum hdates ⊢
    simp only [List.map_cons, List.map_nil, List.sum_cons, List.sum_nil,
      add_zero] at hsum
    rw [gyLoop]
    simp only [if_pos hsum]
    by_cases hl : l = ""
    · by_cases hq : r.qty ≠ 0
      · simp [hl, hq, List.find?_cons]
      · simp [hl, hq, List.find?_cons]
    · simp [hl]
  | r :: rest, k + 2, total, l, ts, _, hk2, hsum, hmin, hdates => by
    have h1 : ¬ (total + r.qty = s) := by
      have := hmin 1 (le_refl 1) (by omega)
      simpa using this
    rw [gyLoop]
    simp only [if_neg h1]
    have hk2b : k + 1 ≤ rest.length := by
      simpa using hk2
    have hsumb : (total + r.qty) + ((rest.take (k + 1)).map YieldRec.qty).sum = s := by
      rw [List.take_succ_cons, List.map_cons, List.sum_cons, ← add_assoc] at hsum
      exact hsum
    have hminb : ∀ m, 1 ≤ m → m < k + 1 →
        (total + r.qty) + ((rest.take m).map YieldRec.qty).sum ≠ s := by
      intro m hm1 hm2
      have := hmin (m + 1) (by omega) (by omega)
      rw [List.take_succ_cons, List.map_cons, List.sum_cons, ← add_assoc] at this
      exact this
    have hdatesb : ∀ q ∈ rest.take (k + 1), q.date ≠ "" := by
      intro q hq
      exact hdates q (by rw [List.take_succ_cons]; exact List.mem_cons_of_mem r hq)
    have hr : r.date ≠ "" := by
      apply hdates r
      rw [List.take_succ_cons]
      exact List.mem_cons_self ..
    have ih := gyLoop_hit s rest (k + 1) (total + r.qty)
    rw [List.take_succ_cons, List.find?_cons]
    by_cases hl : l = ""
    · by_cases hq : r.qty ≠ 0
      · rw [if_pos ⟨hl, hq⟩]
        rw [ih r.date r.ts (by omega) hk2b hsumb hminb hdatesb]
        simp [hr, hq, hl]
      · rw [if_neg (fun hc => hq hc.2)]
        rw [ih l ts (by omega) hk2b hsumb hminb hdatesb]
        simp only [hq]
        simp [hl, hq]
    · rw [if_neg (fun hc => hl hc.1)]
      rw [ih l ts (by omega) hk2b hsumb hminb hdatesb]
      simp [hl]

/-- C8, amended.  For a nonempty work slip whose history records all carry
nonempty dates: scanning the history backward while accumulating quantity,
`get_yielded_date` returns the `("ERROR", "N/A")` sentinel when no
backward prefix sums to `row_sum`, and otherwise returns at the shortest
such prefix with the `(date, timestamp)` of its first nonzero-quantity
record. -/
theorem C8_amended_backward_accumulation (hist : String → List YieldRec)
    (slip : String) (s : ℚ) (hslip : slip ≠ "")
    (hdates : ∀ r ∈ (hist slip).reverse, r.date ≠ "") :
    ((∀ k, 1 ≤ k → k ≤ (hist slip).reverse.length →
        ((((hist slip).reverse.take k).map YieldRec.qty)).sum ≠ s) →
      get_yielded_date hist slip s = .pair "ERROR" "N/A") ∧
    (∀ k, 1 ≤ k → k ≤ (hist slip).reverse.length →
      ((((hist slip).reverse.take k).map YieldRec.qty)).sum = s →
      (∀ m, 1 ≤ m → m < k →
        ((((hist slip).reverse.take m).map YieldRec.qty)).sum ≠ s) →
      get_yielded_date hist slip s =
        match ((hist slip).reverse.take k).find? (fun r => decide (r.qty ≠ 0)) with
        | some r => .pair r.date r.ts
        | none => .pair "" "") := by
  constructor
  · intro h
    unfold get_yielded_date
    rw [if_neg hslip]
    rw [gyLoop_no_hit s _ 0 "" "" (by
      intro k hk1 hk2
      rw [zero_add]
      exact h k hk1 hk2)]
  · intro k hk1 hk2 hsum hmin
    unfold get_yielded_date
    rw [if_neg hslip]
    rw [gyLoop_hit s _ k 0 "" "" hk1 hk2 (by rw [zero_add]; exact hsum)
      (by
        intro m hm1 hm2
        rw [zero_add]
        exact hmin m hm1 hm2)
      (fun r hr => hdates r (List.take_subset k _ hr))]
    rw [if_pos rfl]
    cases ((hist slip).reverse.take k).find? (fun r => decide (r.qty ≠ 0)) with
    | none => rfl
    | some r => rfl

unseal Rat.add Rat.sub in
/-- C8, witness: a one-record history whose quantity equals `row_sum`. -/
theorem C8_amended_witness :
    get_yielded_date histC8w "W" 2 = YDRes.pair "01/01/25" "t1" := by
  have := (C8_amended_backward_accumulation histC8w "W" 2 (by decide)
    (by decide)).2 1 (by decide) (by decide) (by decide)
    (by intro m hm1 hm2; omega)
  simpa using this

/-- C1, amended.  Characterization of the backward scan: it walks past
skipped steps and past every non-skipped step with
`completed > curr_sum` (there is no `break` in that branch), stopping only
at the first non-skipped step with `completed <= curr_sum`.  Consequently
the quality flag is set iff some scanned non-skipped step exceeds
`curr_sum`, and the final quantity is `completed - curr_sum` of the LAST
(earliest-in-table) such step, not the first. -/
theorem C1_amended_overwrite (ccD : String → String → Except Unit String)
    (acc : List String) (dbId slip : String) (iIdx n : ℕ) (curr_sum : ℚ)
    (d : String) (hcc : ccD dbId slip = .ok d) :
    ∀ (L : List Step) (st : QState),
      (backScanL ccD acc dbId slip iIdx n curr_sum L st).map
          (fun st2 => (st2.in_qual, st2.qty)) =
        .ok (match ((L.takeWhile (fun s =>
              !(decide (notSkipped acc s)) || decide (curr_sum < s.ycomplete))).filter
                (fun s => decide (notSkipped acc s))).getLast? with
          | none => (st.in_qual, st.qty)
          | some s => (true, Sum.inr (s.ycomplete - curr_sum)))
  | [], st => by
    simp [backScanL, Except.map]
  | s :: rest, st => by
    simp only [backScanL]
    by_cases hns : notSkipped acc s
    · by_cases hle : s.ycomplete ≤ curr_sum
      · rw [if_pos hns, if_pos hle]
        rw [List.takeWhile_cons]
        rw [show (!(decide (notSkipped acc s)) || decide (curr_sum < s.ycomplete)) = false by
          simp [hns, hle, not_lt.mpr hle]]
        simp [Except.map]
      · rw [if_pos hns, if_neg hle, hcc]
        rw [C1_amended_overwrite ccD acc dbId slip iIdx n curr_sum d hcc rest _]
        rw [List.takeWhile_cons]
        rw [show (!(decide (notSkipped acc s)) || decide (curr_sum < s.ycomplete)) = true by
          simp [hns, lt_of_not_le hle]]
        rw [if_pos rfl]
        rw [List.filter_cons_of_pos (by simp [hns])]
        rw [List.getLast?_cons]
        cases hq : (List.filter (fun s => decide (notSkipped acc s))
            (List.takeWhile (fun s =>
              !decide (notSkipped acc s) || decide (curr_sum < s.ycomplete))
              rest)).getLast? <;> simp [hq]
    · rw [if_neg hns]
      rw [C1_amended_overwrite ccD acc dbId slip iIdx n curr_sum d hcc rest _]
      rw [List.takeWhile_cons]
      rw [show (!(decide (notSkipped acc s)) || decide (curr_sum < s.ycomplete)) = true by
        simp [hns]]
      rw [if_pos rfl]
      rw [List.filter_cons_of_neg (by simp [hns])]

unseal Rat.add Rat.sub in
/-- C1, witness: on the backward list of `tblC1` (steps `Turn` then
`Mill` in scan order) the quantity comes from the earliest step `Mill`:
`200 - 40 = 160`. -/
theorem C1_amended_witness :
    (backScanL ccOk accX "V1" "WS3" 3 4 40
        [ { artbez := "Turn", art := "X1", ycomplete := 100 },
          { artbez := "Mill", art := "X1", ycomplete := 200 } ] {}).map
      (fun st2 => (st2.in_qual, st2.qty)) = .ok (true, Sum.inr 160) := by
  exact (C1_amended_overwrite ccOk accX "V1" "WS3" 3 4 40 "01/02/25" (by decide)
    [ { artbez := "Turn", art := "X1", ycomplete := 100 },
      { artbez := "Mill", art := "X1", ycomplete := 200 } ] {}).trans (by decide)

/-- Helper: the loop invariant of `merge_processing_data` on an all-equal-key
group: processing indices `a..len(data)` from the accumulated state after
rows `0..a-1` yields the single merged row and one enrichment call each. -/
theorem mergeGo_single_group (wn : String → String → List String)
    (np : String → String → String) (h : PRow) (tail : List PRow)
    (hkeys : ∀ r ∈ h :: tail, r.pn = h.pn ∧ r.loc = h.loc)
    (w0 : String) (ws : List String) (hw : wn h.poId h.pn = w0 :: ws) :
    ∀ (k a : ℕ), 1 ≤ a → a + k = tail.length + 1 →
      (mergeGo wn np (h :: tail) (List.range' a (k + 1))
        { merged_data := []
          prev_pn := h.pn
          prev_loc := h.loc
          prev_qty := (((h :: tail).take a).map PRow.qty).sum
          prev_row := 0
          merged := decide (2 ≤ a)
          curr_pn := if a = 1 then "No Value" else h.pn
          curr_loc := if a = 1 then "" else h.loc
          curr_qty := if a = 1 then 0 else ((h :: tail).getD (a - 1) default).qty
          wnCalls := []
          npCalls := [] }).map (fun st => (st.merged_data, st.wnCalls, st.npCalls))
      = .ok ([{ h with
                poId := String.intercalate ", " (w0 :: ws)
                nextp := np w0 h.pn
                qty := ((h :: tail).map PRow.qty).sum }],
             [(h.poId, h.pn)], [(w0, h.pn)])
  | 0, a, ha, hak => by
    have haa : a = tail.length + 1 := by omega
    subst haa
    rw [List.range'_one]
    simp only [mergeGo, mergeStep]
    rw [if_neg (show ¬ (tail.length + 1 < (h :: tail).length) by simp)]
    rw [if_neg (show ¬ ((tail.length + 1 < (h :: tail).length) ∧ _ ∧ _) from
      fun hc => by simp at hc)]
    rw [show (tail.length + 1) = (h :: tail).length from rfl, List.take_length]
    cases tail with
    | nil =>
      simp [hw, Except.map]
    | cons q tl =>
      simp only [List.getD_cons_zero]
      rw [hw]
      by_cases hpn : h.pn = "No Value"
      · simp [Except.map, hpn]
      · simp [Except.map, hpn]
  | k + 1, a, ha, hak => by
    have halt : a < (h :: tail).length := by
      simp only [List.length_cons]
      omega
    have hkey := hkeys ((h :: tail).getD a default)
      (by
        rw [List.getD_eq_getElem?_getD, List.getElem?_eq_getElem halt]
        exact List.getElem_mem halt)
    have hstep : mergeStep wn np (h :: tail)
        { merged_data := []
          prev_pn := h.pn
          prev_loc := h.loc
          prev_qty := (((h :: tail).take a).map PRow.qty).sum
          prev_row := 0
          merged := decide (2 ≤ a)
          curr_pn := if a = 1 then "No Value" else h.pn
          curr_loc := if a = 1 then "" else h.loc
          curr_qty := if a = 1 then 0 else ((h :: tail).getD (a - 1) default).qty
          wnCalls := []
          npCalls := [] } a
        = .ok
        { merged_data := []
          prev_pn := h.pn
          prev_loc := h.loc
          prev_qty := (((h :: tail).take (a + 1)).map PRow.qty).sum
          prev_row := 0
          merged := decide (2 ≤ a + 1)
          curr_pn := if a + 1 = 1 then "No Value" else h.pn
          curr_loc := if a + 1 = 1 then "" else h.loc
          curr_qty := if a + 1 = 1 then 0 else ((h :: tail).getD (a + 1 - 1) default).qty
          wnCalls := []
          npCalls := [] } := by
      simp only [mergeStep]
      rw [if_pos halt, if_pos ⟨halt, hkey.1, hkey.2⟩]
      refine congrArg Except.ok ?_
      simp only [MState.mk.injEq]
      have hne1 : ¬ (a + 1 = 1) := by omega
      have h2a : 2 ≤ a + 1 := by omega
      refine ⟨trivial, trivial, trivial, ?_, trivial, ?_, ?_, ?_, ?_, trivial, trivial⟩
      · have htake : List.take (a + 1) (h :: tail)
            = List.take a (h :: tail) ++ [(h :: tail)[a]] := by
          rw [List.take_succ, List.getElem?_eq_getElem halt]
          rfl
        rw [htake, List.map_append, List.sum_append,
          List.getD_eq_getElem?_getD, List.getElem?_eq_getElem halt]
        simp only [Option.getD_some, List.map_cons, List.map_nil,
          List.sum_cons, List.sum_nil, add_zero]
      · simp [h2a]
      · rw [hkey.1, if_neg hne1]
      · rw [hkey.2, if_neg hne1]
      · rw [if_neg hne1]
        rfl
    rw [List.range'_succ, mergeGo, hstep]
    exact mergeGo_single_group wn np h tail hkeys w0 ws hw k (a + 1)
      (by omega) (by omega)

/-- C7.  On a nonempty pre-sorted row sequence whose rows all share the
grouping key (part/process and receipt location), and whose enrichment
lookup returns a nonempty work-order list for the representative row, the
reconciler returns exactly one merged row carrying the sum of all
quantities, and the instrumented call logs show `get_wo_nums` and
`get_next_process` each invoked exactly once, on the first row of the
group. -/
theorem C7_reconcile_single_group (wn : String → String → List String)
    (np : String → String → String) (h : PRow) (tail : List PRow)
    (hkeys : ∀ r ∈ h :: tail, r.pn = h.pn ∧ r.loc = h.loc)
    (w0 : String) (ws : List String) (hw : wn h.poId h.pn = w0 :: ws) :
    merge_processing_data wn np (h :: tail) =
      .ok ([{ h with
              poId := String.intercalate ", " (w0 :: ws)
              nextp := np w0 h.pn
              qty := ((h :: tail).map PRow.qty).sum }],
           [(h.poId, h.pn)], [(w0, h.pn)]) := by
  have hinv := mergeGo_single_group wn np h tail hkeys w0 ws hw tail.length 1
    (le_refl 1) (by omega)
  have hst : ({ prev_pn := h.pn, prev_loc := h.loc, prev_qty := h.qty } : MState)
      = { merged_data := []
          prev_pn := h.pn
          prev_loc := h.loc
          prev_qty := (((h :: tail).take 1).map PRow.qty).sum
          prev_row := 0
          merged := decide (2 ≤ 1)
          curr_pn := if 1 = 1 then "No Value" else h.pn
          curr_loc := if 1 = 1 then "" else h.loc
          curr_qty := if 1 = 1 then 0 else ((h :: tail).getD (1 - 1) default).qty
          wnCalls := []
          npCalls := [] } := by
    simp [MState.mk.injEq]
  simp only [merge_processing_data, List.length_cons]
  rw [hst]
  cases hmg : mergeGo wn np (h :: tail) (List.range' 1 (tail.length + 1))
      { merged_data := []
        prev_pn := h.pn
        prev_loc := h.loc
        prev_qty := (((h :: tail).take 1).map PRow.qty).sum
        prev_row := 0
        merged := decide (2 ≤ 1)
        curr_pn := if 1 = 1 then "No Value" else h.pn
        curr_loc := if 1 = 1 then "" else h.loc
        curr_qty := if 1 = 1 then 0 else ((h :: tail).getD (1 - 1) default).qty
        wnCalls := []
        npCalls := [] } with
  | error e =>
    rw [hmg] at hinv
    simp [Except.map] at hinv
  | ok st =>
    rw [hmg] at hinv
    simpa [Except.map] using hinv

unseal Rat.add Rat.sub in
/-- C7, witness: three rows sharing the key merge into one row of
quantity 12, with one enrichment call on the first row. -/
theorem C7_reconcile_single_group_witness :
    merge_processing_data wnC7 npConst rowsC7 =
      .ok ([{ po := "", supplier := "", desc := "", pn := "ProcA",
              poId := "100, 200", loc := "L1", qty := 12, nextp := "-" }],
           [("ID1", "ProcA")], [("100", "ProcA")]) := by
  exact (C7_reconcile_single_group wnC7 npConst
    { pn := "ProcA", poId := "ID1", loc := "L1", qty := 3 }
    [ { pn := "ProcA", poId := "ID2", loc := "L1", qty := 4 },
      { pn := "ProcA", poId := "ID3", loc := "L1", qty := 5 } ]
    (by decide) "100" ["200"] (by decide)).trans (by decide)


end Dishon
